import Mathlib

/-!
Shallow embedding of the data-ingestion layer of the Trend repository
(`src/trete_backtest/data/tiingo_loader.py` together with the `DataConfig`
record of `src/trete_backtest/config.py`).

Modelling conventions:
* A pandas cell is `Option ℚ` — `none` is NaN / a missing value, `some q`
  a finite numeric value (binary64 decimal round-trips are exact, so `ℚ`
  is a faithful value model for this code, which does no arithmetic).
* Calendar dates are `Nat` (days since an epoch); `to_datetime` plus
  `tz_localize(None)` is modelled by dropping the timezone annotation of
  a raw record.
* Column dtypes are tracked explicitly, since the loader's contracts
  speak about `int64` versus `float64` columns.
* The network is an oracle `Nat → Attempt` giving the outcome of the
  i-th `requests.get` call; file-system effects and sleeps are recorded
  in an explicit event trace, and the cache directory is an association
  list from paths to stored row lists.
-/

namespace TiingoLoader

/-- Calendar date, days since an epoch (daily, timezone-naive). -/
abbrev Date := Nat

/-- One tabular cell: `none` models NaN / a missing value. -/
abbrev Cell := Option ℚ

/-- Column dtype as pandas tracks it. -/
inductive Dtype
  | int64
  | float64
deriving DecidableEq, Repr

/-- numpy `astype("int64")` casts a float by truncation toward zero. -/
def truncQ (q : ℚ) : ℚ := ((q.num.tdiv (q.den : ℤ) : ℤ) : ℚ)

/-- One normalized price row: the `date` index plus the three value
columns kept by the loader. -/
structure PriceRow where
  date : Date
  adjOpen : Cell
  adjClose : Cell
  adjVolume : Cell
deriving DecidableEq, Repr

/-- One raw provider record: a date that may carry a timezone
annotation, the three value fields, and arbitrary extra fields the
provider returned (discarded by normalization). -/
structure RawRecord where
  date : Date
  tzOffset : Option Int
  adjOpen : Cell
  adjClose : Cell
  adjVolume : Cell
  extras : List (String × ℚ)
deriving DecidableEq, Repr

/-- Date parse + `tz_localize(None)` + restriction to the three value
columns (`df = df[["adjOpen", "adjClose", "adjVolume"]]`). -/
def rawToRow (r : RawRecord) : PriceRow :=
  ⟨r.date, r.adjOpen, r.adjClose, r.adjVolume⟩

/-- A price series as returned to callers: rows plus column dtypes. -/
structure PriceFrame where
  rows : List PriceRow
  openDtype : Dtype
  closeDtype : Dtype
  volumeDtype : Dtype
deriving DecidableEq, Repr

/-- The dtype-coercion step of lines 96–103 / 130–135 of
`tiingo_loader.py`: `adjOpen`/`adjClose` become `float64` (value
identity), and `adjVolume` becomes `int64` (truncating cast) iff the
whole column holds no NaN, else `float64` with values unchanged.
Returns the coerced rows and the resulting volume dtype. -/
def coercePriceRows (rows : List PriceRow) : List PriceRow × Dtype :=
  if rows.any (fun r => r.adjVolume.isNone) then
    (rows, .float64)
  else
    (rows.map (fun r => ⟨r.date, r.adjOpen, r.adjClose, r.adjVolume.map truncQ⟩), .int64)

/-- Comparison used by `df.sort_index()`: sort rows by date. -/
def dateLe (a b : PriceRow) : Prop := a.date ≤ b.date

instance : DecidableRel dateLe := fun a b => Nat.decLe a.date b.date

/-- `df[~df.index.duplicated(keep="first")]`: keep, for every date, only
its first occurrence; `seen` is the set of dates already kept. -/
def dedupDates : List PriceRow → List Date → List PriceRow
  | [], _ => []
  | r :: rs, seen =>
    if r.date ∈ seen then dedupDates rs seen
    else r :: dedupDates rs (r.date :: seen)

/-- Lines 87–109 of `tiingo_loader.py` applied to a list of price rows:
dtype coercion, ascending sort by date, then — only when the sorted
index has duplicates — first-occurrence deduplication together with a
warning flag (`logger.warning`).  `df.sort_index()` defaults to
`kind='quicksort'`, which is not stable; `List.insertionSort` is this
model's deterministic choice of a sort satisfying the `IsDateSorting`
contract (sorted permutation), and no theorem below relies on its tie
order among equal dates: tie-order-dependent facts are quantified over
`IsDateSorting` instead. -/
def normalizePriceRows (rows : List PriceRow) : PriceFrame × Bool :=
  let coerced := coercePriceRows rows
  let sorted := List.insertionSort dateLe coerced.1
  if (sorted.map (fun r => r.date)).Nodup then
    (⟨sorted, .float64, .float64, coerced.2⟩, false)
  else
    (⟨dedupDates sorted [], .float64, .float64, coerced.2⟩, true)

/-- Full normalization of the network path (`fetch_ticker_from_tiingo`
lines 87–109): date parse / tz strip / column restriction, then
coercion, sort and deduplication.  The `Bool` is the duplicate-dates
warning flag. -/
def normalizeRecords (records : List RawRecord) : PriceFrame × Bool :=
  normalizePriceRows (records.map rawToRow)

/-- The cache-read path of `load_ticker` (lines 128–136): the artifact
rows are taken as read, and only the dtype coercion of lines 130–135 is
applied — no sort, no deduplication, no column restriction. -/
def coerceCachedPrice (rows : List PriceRow) : PriceFrame :=
  let coerced := coercePriceRows rows
  ⟨coerced.1, .float64, .float64, coerced.2⟩

/-! ### The network / effect model -/

/-- Outcome of one `requests.get` call: an HTTP response (status code
plus, for price fetches, the decoded JSON body) or a transport-level
connection failure (`requests.exceptions.ConnectionError`). -/
structure HttpResponse where
  statusCode : Nat
  body : List RawRecord
deriving DecidableEq, Repr

inductive Attempt
  | resp (r : HttpResponse)
  | connError
deriving DecidableEq, Repr

/-- What the final retryable outcome was, as carried by the error
message of the `ConnectionError` raised after exhausting retries. -/
inductive LastOutcome
  | httpStatus (code : Nat)
  | connFailure
deriving DecidableEq, Repr

/-- The error taxonomy of the loader, mirroring the exceptions of
`tiingo_loader.py`: empty-key `ValueError`, 404 `ValueError`,
retry-exhausted `ConnectionError` (carrying the attempt count and the
last outcome), `response.raise_for_status()` on another non-2xx, and
the empty-body `ValueError`. -/
inductive FetchError
  | invalidArgument
  | notFound
  | unavailable (attempts : Nat) (last : LastOutcome)
  | httpError (code : Nat)
  | dataEmpty
deriving DecidableEq, Repr

/-- Observable side effects of one loader call. -/
inductive FsEvent
  | networkCall
  | sleep (seconds : Nat)
  | mkdirs (dir : String)
  | writeFile (path : String)
  | writeTemp (path : String)
  | rename (src dst : String)
  | warnDuplicates
deriving DecidableEq, Repr

def «_MAX_RETRIES» : Nat := 3

def «_BACKOFF_SECONDS» : List Nat := [1, 2, 4]

/-- Result of the retry loop of lines 52–81. -/
inductive LoopResult
  | success (r : HttpResponse)
  | failure (e : FetchError)
deriving DecidableEq, Repr

/-- What one attempt decides: retry (status 429 / 5xx / connection
failure) or final (404 → NotFound, other 4xx → `raise_for_status`,
2xx/3xx → success). -/
inductive StepResult
  | retry (last : LastOutcome)
  | done (res : LoopResult)
deriving DecidableEq, Repr

/-- The per-attempt dispatch of lines 55–70 of `tiingo_loader.py`. -/
def attemptStep : Attempt → StepResult
  | .connError => .retry .connFailure
  | .resp r =>
    if r.statusCode = 429 ∨ 500 ≤ r.statusCode then .retry (.httpStatus r.statusCode)
    else if r.statusCode = 404 then .done (.failure .notFound)
    else if 400 ≤ r.statusCode then .done (.failure (.httpError r.statusCode))
    else .done (.success r)

/-- The retry loop `for attempt in range(_MAX_RETRIES + 1)` of lines
52–81.  `attempt` is the 0-based attempt index and `retriesLeft` is
`_MAX_RETRIES - attempt`, so the source guard `attempt < _MAX_RETRIES`
is `retriesLeft ≠ 0`.  Each attempt logs a `networkCall`; each retry
sleeps `_BACKOFF_SECONDS[attempt]`; exhaustion raises
`unavailable (attempt + 1) last` (the "after N attempts" message). -/
def retryFetch (oracle : Nat → Attempt) (attempt retriesLeft : Nat) :
    LoopResult × List FsEvent :=
  match attemptStep (oracle attempt), retriesLeft with
  | .done res, _ => (res, [.networkCall])
  | .retry last, 0 => (.failure (.unavailable (attempt + 1) last), [.networkCall])
  | .retry _, Nat.succ k =>
    let p := retryFetch oracle (attempt + 1) k
    (p.1, .networkCall :: .sleep («_BACKOFF_SECONDS».getD attempt 0) :: p.2)

/-- `fetch_ticker_from_tiingo` (lines 17–111): empty-key check before
any network call, the retry loop, the empty-body check, then
normalization (with its duplicate warning turned into an event). -/
def fetch_ticker_from_tiingo (ticker start_date end_date api_key base_url : String)
    (oracle : Nat → Attempt) : Except FetchError PriceFrame × List FsEvent :=
  if api_key = "" then (.error .invalidArgument, [])
  else
    match retryFetch oracle 0 «_MAX_RETRIES» with
    | (.failure e, evs) => (.error e, evs)
    | (.success r, evs) =>
      if r.body.isEmpty then (.error .dataEmpty, evs)
      else
        let nf := normalizeRecords r.body
        (.ok nf.1, evs ++ if nf.2 then [.warnDuplicates] else [])

/-- The configuration record of `config.py` (fields used by the
loader). -/
structure DataConfig where
  tiingo_api_key : String
  tiingo_base_url : String
  start_date : String
  end_date : String
  cache_dir : String
  use_cache : Bool
deriving DecidableEq, Repr

/-- Python's `str.upper()` (ASCII tickers), character-wise. -/
def upper (s : String) : String := String.mk (s.data.map Char.toUpper)

/-- `Path(config.cache_dir) / f"{ticker.upper()}.csv"`. -/
def cachePathOf (config : DataConfig) (ticker : String) : String :=
  config.cache_dir ++ "/" ++ upper ticker ++ ".csv"

/-- The on-disk cache: an association list from artifact path to the
stored rows (decimal text round-trips binary64 exactly, and dates use
the injective `%Y-%m-%d` format, so the artifact is faithfully the row
list itself). -/
abbrev PriceCache := List (String × List PriceRow)

/-- `load_ticker` (lines 114–150): cache-aside lookup, then on a miss
the fetch followed by `os.makedirs` and a direct `df.to_csv` write of
the artifact.  Returns the result, the updated cache state, and the
event trace. -/
def load_ticker (ticker : String) (config : DataConfig) (fs : PriceCache)
    (oracle : Nat → Attempt) :
    Except FetchError PriceFrame × PriceCache × List FsEvent :=
  let cache_path := cachePathOf config ticker
  match config.use_cache, fs.lookup cache_path with
  | true, some rows => (.ok (coerceCachedPrice rows), fs, [])
  | _, _ =>
    match fetch_ticker_from_tiingo ticker config.start_date config.end_date
        config.tiingo_api_key config.tiingo_base_url oracle with
    | (.error e, evs) => (.error e, fs, evs)
    | (.ok f, evs) =>
      (.ok f, (cache_path, f.rows) :: fs,
        evs ++ [.mkdirs config.cache_dir, .writeFile cache_path])

/-! ### The VIX side -/

/-- One row of the FRED CSV after parsing: date plus the close level,
`none` when the feed carried the missing-value sentinel `"."`
(`na_values=["."]`). -/
structure VixRow where
  date : Date
  vix_close : Cell
deriving DecidableEq, Repr

/-- A VIX series as returned to callers. -/
structure VixFrame where
  rows : List VixRow
  closeDtype : Dtype
deriving DecidableEq, Repr

/-- `df["vix_close"].ffill()`: replace each missing value by the most
recent prior valid value, `carry` being the value carried in from the
rows already processed. -/
def ffill : List VixRow → Cell → List VixRow
  | [], _ => []
  | r :: rs, carry =>
    match r.vix_close with
    | some v => ⟨r.date, some v⟩ :: ffill rs (some v)
    | none => ⟨r.date, carry⟩ :: ffill rs carry

/-- The most recent valid (`some`) close value in `l`, or `carry` if
`l` holds none; the fold mirrors `ffill`'s carry. -/
def lastValid : List VixRow → Cell → Cell
  | [], carry => carry
  | r :: rs, carry =>
    match r.vix_close with
    | some v => lastValid rs (some v)
    | none => lastValid rs carry

/-- Index of the first row with a valid close value (`l.length` when
every row is missing). -/
def firstValidIdx : List VixRow → Nat
  | [] => 0
  | r :: rs => if r.vix_close.isSome then 0 else firstValidIdx rs + 1

/-- Comparison used by `df.sort_index()` on the VIX frame. -/
def vixDateLe (a b : VixRow) : Prop := a.date ≤ b.date

instance : DecidableRel vixDateLe := fun a b => Nat.decLe a.date b.date

/-- The post-processing of `fetch_vix` (lines 176–197): forward-fill,
`dropna` (which, after the fill, removes exactly the rows before the
first valid observation), `astype("float64")`, ascending sort. -/
def processVix (records : List VixRow) : VixFrame :=
  let filled := ffill records none
  let dropped := filled.filter (fun r => r.vix_close.isSome)
  ⟨List.insertionSort vixDateLe dropped, .float64⟩

/-- Outcome of the single `requests.get` of `fetch_vix`: status code
plus the parsed CSV records. -/
structure HttpVixResponse where
  statusCode : Nat
  records : List VixRow
deriving DecidableEq, Repr

/-- `fetch_vix` (lines 153–197): one GET, `raise_for_status` (any non-2xx
surfaces immediately, no retry), then post-processing; a 2xx response
whose CSV yields zero records flows through unchecked. -/
def fetch_vix (start_date end_date : String) (resp : HttpVixResponse) :
    Except FetchError VixFrame × List FsEvent :=
  if 400 ≤ resp.statusCode then (.error (.httpError resp.statusCode), [.networkCall])
  else (.ok (processVix resp.records), [.networkCall])

/-- The persisted VIX artifacts: path ↦ stored rows. -/
abbrev VixCache := List (String × List VixRow)

/-- `load_vix` (lines 200–219): cache-aside; on a hit only
`astype("float64")` on the close column (value identity), on a miss
`fetch_vix` then `os.makedirs` and a direct `df.to_csv` write. -/
def load_vix (config : DataConfig) (fs : VixCache) (resp : HttpVixResponse) :
    Except FetchError VixFrame × VixCache × List FsEvent :=
  let cache_path := config.cache_dir ++ "/VIX.csv"
  match config.use_cache, fs.lookup cache_path with
  | true, some rows => (.ok ⟨rows, .float64⟩, fs, [])
  | _, _ =>
    match fetch_vix config.start_date config.end_date resp with
    | (.error e, evs) => (.error e, fs, evs)
    | (.ok f, evs) =>
      (.ok f, (cache_path, f.rows) :: fs,
        evs ++ [.mkdirs config.cache_dir, .writeFile cache_path])

/-- Boolean date selector used to talk about "the rows of date `d`". -/
def dateIs (d : Date) (r : PriceRow) : Bool := r.date == d

instance : IsTotal PriceRow dateLe := ⟨fun a b => Nat.le_total a.date b.date⟩

instance : IsTrans PriceRow dateLe := ⟨fun _ _ _ h1 h2 => Nat.le_trans h1 h2⟩

instance : IsTotal VixRow vixDateLe := ⟨fun a b => Nat.le_total a.date b.date⟩

instance : IsTrans VixRow vixDateLe := ⟨fun _ _ _ h1 h2 => Nat.le_trans h1 h2⟩

/-- The status/exception information carried into the final
`ConnectionError` message. -/
def lastOutcomeOf : Attempt → LastOutcome
  | .resp r => .httpStatus r.statusCode
  | .connError => .connFailure

/-- The retryable outcomes: HTTP 429, any HTTP 5xx, or a
transport-level connection failure. -/
def Retryable (a : Attempt) : Prop :=
  match a with
  | .connError => True
  | .resp r => r.statusCode = 429 ∨ 500 ≤ r.statusCode

instance (a : Attempt) : Decidable (Retryable a) :=
  match a with
  | .connError => Decidable.isTrue trivial
  | .resp r => inferInstanceAs (Decidable (r.statusCode = 429 ∨ 500 ≤ r.statusCode))

/-- The invariant every artifact-faithful frame satisfies: open/close
are `float64`, and the volume dtype is witnessed by the surviving rows
(`int64` with integral present values, or `float64` with a missing
value still present). -/
def Canonical (f : PriceFrame) : Prop :=
  f.openDtype = .float64 ∧ f.closeDtype = .float64 ∧
    ((f.volumeDtype = .int64 ∧
        ∀ r ∈ f.rows, r.adjVolume.map truncQ = r.adjVolume ∧ r.adjVolume.isSome) ∨
      (f.volumeDtype = .float64 ∧ ∃ r ∈ f.rows, r.adjVolume = none))

/-- The required-on-write atomic-persistence discipline of the
specification: some temp path is written and then renamed onto the
artifact path. -/
def usesAtomicReplace (evs : List FsEvent) (path : String) : Prop :=
  ∃ tmp, FsEvent.writeTemp tmp ∈ evs ∧ FsEvent.rename tmp path ∈ evs

/-- The contract of `df.sort_index()` (default `kind='quicksort'`,
which numpy documents as NOT stable): the output is some permutation of
the input whose dates are non-decreasing.  Every property that depends
on the tie order among equal dates must be stated against this
contract, not against one particular tie order. -/
def IsDateSorting (l s : List PriceRow) : Prop :=
  List.Perm s l ∧ s.Sorted dateLe


/-! ### Infrastructure lemmas: sorting contract and first-occurrence dedup -/

@[simp] lemma dateIs_eq_true {d : Date} {r : PriceRow} :
    dateIs d r = true ↔ r.date = d := by
  simp [dateIs]

lemma dedupDates_sublist : ∀ (l : List PriceRow) (seen : List Date),
    (dedupDates l seen).Sublist l
  | [], _ => List.Sublist.refl []
  | r :: rs, seen => by
    simp only [dedupDates]
    by_cases h : r.date ∈ seen
    · simpa [h] using (dedupDates_sublist rs seen).cons r
    · simpa [h] using (dedupDates_sublist rs (r.date :: seen)).cons₂ r

lemma date_not_seen_of_mem_dedupDates : ∀ (l : List PriceRow) (seen : List Date)
    (x : PriceRow), x ∈ dedupDates l seen → x.date ∉ seen
  | [], _, _, hx => absurd hx (List.not_mem_nil _)
  | r :: rs, seen, x, hx => by
    simp only [dedupDates] at hx
    by_cases h : r.date ∈ seen
    · exact date_not_seen_of_mem_dedupDates rs seen x (by simpa [h] using hx)
    · rw [if_neg h] at hx
      rcases List.mem_cons.mp hx with hxr | hxs
      · simpa [hxr] using h
      · intro hmem
        exact date_not_seen_of_mem_dedupDates rs (r.date :: seen) x hxs
          (List.mem_cons_of_mem _ hmem)

lemma pairwise_ne_dedupDates : ∀ (l : List PriceRow) (seen : List Date),
    (dedupDates l seen).Pairwise (fun a b => a.date ≠ b.date)
  | [], _ => List.Pairwise.nil
  | r :: rs, seen => by
    simp only [dedupDates]
    by_cases h : r.date ∈ seen
    · simpa [h] using pairwise_ne_dedupDates rs seen
    · rw [if_neg h]
      refine List.Pairwise.cons ?_ (pairwise_ne_dedupDates rs (r.date :: seen))
      intro b hb hdb
      exact date_not_seen_of_mem_dedupDates rs (r.date :: seen) b hb
        (by simp [hdb])

/-- First-occurrence dedup, viewed through one date: of all rows with
date `d`, exactly the first one survives (none if `d` was already
seen). -/
lemma filter_dedupDates : ∀ (l : List PriceRow) (seen : List Date) (d : Date),
    (dedupDates l seen).filter (dateIs d) =
      if d ∈ seen then [] else (l.filter (dateIs d)).take 1
  | [], seen, d => by by_cases h : d ∈ seen <;> simp [dedupDates, h]
  | r :: rs, seen, d => by
    simp only [dedupDates]
    by_cases h : r.date ∈ seen
    · rw [if_pos h, filter_dedupDates rs seen d]
      by_cases hd : d ∈ seen
      · simp [hd]
      · have hrd : r.date ≠ d := fun he => hd (he ▸ h)
        simp [hd, List.filter_cons, hrd]
    · rw [if_neg h]
      by_cases hrd : r.date = d
      · have hd : d ∉ seen := fun hmem => h (hrd ▸ hmem)
        rw [List.filter_cons, filter_dedupDates rs (r.date :: seen) d]
        have hmem : d ∈ r.date :: seen := by simp [hrd]
        simp [List.filter_cons, hrd, hd, hmem]
      · rw [List.filter_cons, filter_dedupDates rs (r.date :: seen) d]
        have hne : (d ∈ r.date :: seen) ↔ d ∈ seen := by
          constructor
          · intro hm
            rcases List.mem_cons.mp hm with he | hs
            · exact absurd he.symm hrd
            · exact hs
          · exact List.mem_cons_of_mem _
        by_cases hd : d ∈ seen
        · simp [List.filter_cons, hrd, hd, hne]
        · simp [List.filter_cons, hrd, hd, hne]

/-- When the dates are already distinct, filtering by a date yields at
most one row, so `take 1` is the identity there. -/
lemma filter_eq_take_one_of_nodup : ∀ (l : List PriceRow),
    (l.map (fun r => r.date)).Nodup → ∀ d : Date,
      l.filter (dateIs d) = (l.filter (dateIs d)).take 1
  | [], _, _ => rfl
  | r :: rs, hnd, d => by
    simp only [List.map_cons, List.nodup_cons] at hnd
    simp only [List.filter_cons]
    by_cases hrd : dateIs d r
    · have : rs.filter (dateIs d) = [] := by
        apply List.filter_eq_nil_iff.mpr
        intro b hb hbd
        apply hnd.1
        have hbdate : b.date = d := by simpa [dateIs] using hbd
        have hrdate : r.date = d := by simpa [dateIs] using hrd
        rw [hrdate, ← hbdate]
        exact List.mem_map_of_mem _ hb
      simp [hrd, this]
    · simpa [hrd] using filter_eq_take_one_of_nodup rs hnd.2 d

/-- Dtype coercion does not touch the date column. -/
lemma map_date_coercePriceRows (rows : List PriceRow) :
    (coercePriceRows rows).1.map (fun r => r.date) = rows.map (fun r => r.date) := by
  unfold coercePriceRows
  by_cases h : rows.any (fun r => r.adjVolume.isNone) <;> simp [h]

/-- The date column of the normalized output is strictly ascending. -/
lemma pairwise_lt_normalizePriceRows (rows : List PriceRow) :
    (normalizePriceRows rows).1.rows.Pairwise (fun a b => a.date < b.date) := by
  unfold normalizePriceRows
  have hsort : (List.insertionSort dateLe (coercePriceRows rows).1).Sorted dateLe :=
    List.sorted_insertionSort dateLe (coercePriceRows rows).1
  by_cases hnd :
      ((List.insertionSort dateLe (coercePriceRows rows).1).map (fun r => r.date)).Nodup
  · simp only [if_pos hnd]
    have hne := List.pairwise_map.mp hnd
    exact hsort.imp₂ (fun a b h1 h2 => lt_of_le_of_ne h1 h2) hne
  · simp only [if_neg hnd]
    have hsub := dedupDates_sublist (List.insertionSort dateLe (coercePriceRows rows).1) []
    have hsorted2 := List.Pairwise.sublist hsub hsort
    have hne := pairwise_ne_dedupDates (List.insertionSort dateLe (coercePriceRows rows).1) []
    exact hsorted2.imp₂ (fun a b h1 h2 => lt_of_le_of_ne h1 h2) hne

/-- Dedup is the identity on a list whose dates are already distinct
and disjoint from `seen`. -/
lemma dedupDates_eq_self : ∀ (l : List PriceRow) (seen : List Date),
    (∀ r ∈ l, r.date ∉ seen) → (l.map (fun r => r.date)).Nodup →
    dedupDates l seen = l
  | [], _, _, _ => rfl
  | r :: rs, seen, hs, hnd => by
    simp only [List.map_cons, List.nodup_cons] at hnd
    rw [dedupDates, if_neg (hs r (List.mem_cons_self r rs))]
    congr 1
    refine dedupDates_eq_self rs (r.date :: seen) ?_ hnd.2
    intro x hx hmem
    rcases List.mem_cons.mp hmem with he | hseen
    · exact hnd.1 (he ▸ List.mem_map_of_mem (fun r => r.date) hx)
    · exact hs x (List.mem_cons_of_mem r hx) hseen

/-- The duplicate warning fires exactly when the raw dates repeat. -/
lemma warned_normalizePriceRows (rows : List PriceRow) :
    (normalizePriceRows rows).2 = true ↔ ¬ (rows.map (fun r => r.date)).Nodup := by
  unfold normalizePriceRows
  have hperm : List.Perm
      ((List.insertionSort dateLe (coercePriceRows rows).1).map (fun r => r.date))
      (rows.map (fun r => r.date)) := by
    rw [← map_date_coercePriceRows rows]
    exact (List.perm_insertionSort dateLe (coercePriceRows rows).1).map _
  by_cases hnd :
      ((List.insertionSort dateLe (coercePriceRows rows).1).map (fun r => r.date)).Nodup
  · simp [if_pos hnd, hperm.nodup_iff.mp hnd]
  · simp only [if_neg hnd]
    simp only [true_iff]
    exact fun h => hnd (hperm.nodup_iff.mpr h)

lemma rawToRow_dates (records : List RawRecord) :
    (records.map rawToRow).map (fun r => r.date) = records.map (fun r => r.date) := by
  simp [rawToRow, Function.comp_def]

/-! ### Retry-loop lemmas -/

lemma attemptStep_retry {a : Attempt} (h : Retryable a) :
    attemptStep a = .retry (lastOutcomeOf a) := by
  cases a with
  | connError => rfl
  | resp r =>
    simp only [Retryable] at h
    simp [attemptStep, lastOutcomeOf, if_pos h]

lemma retryFetch_retry_succ (oracle : Nat → Attempt) (attempt k : Nat)
    (h : Retryable (oracle attempt)) :
    retryFetch oracle attempt (k + 1) =
      ((retryFetch oracle (attempt + 1) k).1,
        .networkCall :: .sleep («_BACKOFF_SECONDS».getD attempt 0) ::
          (retryFetch oracle (attempt + 1) k).2) := by
  rw [retryFetch.eq_def, attemptStep_retry h]

lemma retryFetch_retry_zero (oracle : Nat → Attempt) (attempt : Nat)
    (h : Retryable (oracle attempt)) :
    retryFetch oracle attempt 0 =
      (.failure (.unavailable (attempt + 1) (lastOutcomeOf (oracle attempt))),
        [.networkCall]) := by
  rw [retryFetch.eq_def, attemptStep_retry h]

lemma retryFetch_done (oracle : Nat → Attempt) (attempt retriesLeft : Nat)
    (res : LoopResult) (h : attemptStep (oracle attempt) = .done res) :
    retryFetch oracle attempt retriesLeft = (res, [.networkCall]) := by
  rw [retryFetch.eq_def, h]

/-- Inversion: a fetch that returns `ok` got a nonempty body and
returned exactly its normalization. -/
lemma fetch_ok_inv {t sd ed key burl : String} {oracle : Nat → Attempt}
    {f : PriceFrame} {evs : List FsEvent}
    (h : fetch_ticker_from_tiingo t sd ed key burl oracle = (.ok f, evs)) :
    ∃ records : List RawRecord, records ≠ [] ∧ f = (normalizeRecords records).1 := by
  unfold fetch_ticker_from_tiingo at h
  by_cases hk : key = ""
  · rw [if_pos hk] at h
    simp at h
  · rw [if_neg hk] at h
    rcases hr : retryFetch oracle 0 «_MAX_RETRIES» with ⟨res, evs0⟩
    rw [hr] at h
    cases res with
    | failure e => simp at h
    | success r =>
      cases hb : r.body.isEmpty with
      | true => simp [hb] at h
      | false =>
        simp only [hb, Bool.false_eq_true, if_false] at h
        refine ⟨r.body, ?_, ?_⟩
        · intro hnil
          rw [hnil] at hb
          simp at hb
        · simp only [Prod.mk.injEq] at h
          exact (Except.ok.inj h.1).symm

/-! ### Forward-fill lemmas -/

lemma ffill_getElem? : ∀ (l : List VixRow) (c : Cell) (i : Nat) (hi : i < l.length),
    (ffill l c)[i]? = some ⟨(l.get ⟨i, hi⟩).date, lastValid (l.take (i + 1)) c⟩
  | [], _, _, hi => absurd hi (Nat.not_lt_zero _)
  | r :: rs, c, 0, _ => by
    cases hv : r.vix_close with
    | some v => simp [ffill, hv, lastValid]
    | none => simp [ffill, hv, lastValid]
  | r :: rs, c, i + 1, hi => by
    have hi2 : i < rs.length := Nat.lt_of_succ_lt_succ hi
    cases hv : r.vix_close with
    | some v =>
      simpa [ffill, hv, lastValid] using ffill_getElem? rs (some v) i hi2
    | none =>
      simpa [ffill, hv, lastValid] using ffill_getElem? rs c i hi2

lemma ffill_all_isSome : ∀ (l : List VixRow) (v : ℚ),
    ∀ r ∈ ffill l (some v), r.vix_close.isSome
  | [], _, r, hr => absurd hr (List.not_mem_nil r)
  | x :: xs, v, r, hr => by
    cases hv : x.vix_close with
    | some w =>
      rw [ffill, hv] at hr
      rcases List.mem_cons.mp hr with he | hm
      · simp [he]
      · exact ffill_all_isSome xs w r hm
    | none =>
      rw [ffill, hv] at hr
      rcases List.mem_cons.mp hr with he | hm
      · simp [he]
      · exact ffill_all_isSome xs v r hm

lemma map_date_ffill : ∀ (l : List VixRow) (c : Cell),
    (ffill l c).map (fun r => r.date) = l.map (fun r => r.date)
  | [], _ => rfl
  | r :: rs, c => by
    cases hv : r.vix_close with
    | some v => simp [ffill, hv, map_date_ffill rs (some v)]
    | none => simp [ffill, hv, map_date_ffill rs c]

/-- Under the fill, the rows before the first valid observation come
out unchanged (still missing), and the rest is the fill of the
suffix. -/
lemma ffill_split : ∀ l : List VixRow,
    ffill l none = l.take (firstValidIdx l) ++ ffill (l.drop (firstValidIdx l)) none
  | [] => rfl
  | r :: rs => by
    cases hv : r.vix_close with
    | some v => simp [firstValidIdx, hv]
    | none =>
      have hr : r = ⟨r.date, none⟩ := by cases r; simp_all
      calc ffill (r :: rs) none = ⟨r.date, none⟩ :: ffill rs none := by
            rw [ffill, hv]
        _ = _ := by
            rw [ffill_split rs]
            simp [firstValidIdx, hv, ← hr]

/-- Every filled row of the suffix that starts at the first valid
observation carries a value. -/
lemma ffill_drop_isSome : ∀ l : List VixRow,
    ∀ r ∈ ffill (l.drop (firstValidIdx l)) none, r.vix_close.isSome
  | [], r, hr => absurd hr (List.not_mem_nil r)
  | x :: xs, r, hr => by
    cases hv : x.vix_close with
    | some v =>
      simp only [firstValidIdx, hv, Option.isSome_some, if_true, List.drop_zero] at hr
      rw [ffill, hv] at hr
      rcases List.mem_cons.mp hr with he | hm
      · simp [he]
      · exact ffill_all_isSome xs v r hm
    | none =>
      simp only [firstValidIdx, hv, Option.isSome_none, Bool.false_eq_true, if_false,
        List.drop_succ_cons] at hr
      exact ffill_drop_isSome xs r hr

/-- The rows of the unfilled head are still missing after the fill. -/
lemma take_firstValidIdx_none : ∀ l : List VixRow,
    ∀ r ∈ l.take (firstValidIdx l), r.vix_close = none
  | [], r, hr => absurd hr (List.not_mem_nil r)
  | x :: xs, r, hr => by
    cases hv : x.vix_close with
    | some v => simp [firstValidIdx, hv] at hr
    | none =>
      simp only [firstValidIdx, hv, Option.isSome_none, Bool.false_eq_true, if_false,
        List.take_succ_cons] at hr
      rcases List.mem_cons.mp hr with he | hm
      · rw [he, hv]
      · exact take_firstValidIdx_none xs r hm

/-- `dropna` after the fill keeps exactly the fill of the suffix that
starts at the first valid observation. -/
lemma filter_ffill :
    ∀ l : List VixRow,
      (ffill l none).filter (fun r => r.vix_close.isSome) =
        ffill (l.drop (firstValidIdx l)) none := by
  intro l
  rw [ffill_split l, List.filter_append]
  have h1 : (l.take (firstValidIdx l)).filter (fun r => r.vix_close.isSome) = [] := by
    apply List.filter_eq_nil_iff.mpr
    intro r hr
    simp [take_firstValidIdx_none l r hr]
  have h2 : (ffill (l.drop (firstValidIdx l)) none).filter (fun r => r.vix_close.isSome) =
      ffill (l.drop (firstValidIdx l)) none := by
    apply List.filter_eq_self.mpr
    intro r hr
    simpa using ffill_drop_isSome l r hr
  rw [h1, h2, List.nil_append]

/-! ### The canonical-frame invariant and the dtype coercion -/

lemma map_eq_self_of {α : Type} (l : List α) (f : α → α) (h : ∀ x ∈ l, f x = x) :
    l.map f = l := by
  induction l with
  | nil => rfl
  | cons a as ih =>
    rw [List.map_cons, h a (List.mem_cons_self a as),
      ih (fun x hx => h x (List.mem_cons_of_mem a hx))]

/-- Truncation toward zero is the identity on integral rationals. -/
lemma truncQ_intCast (n : ℤ) : truncQ (n : ℚ) = (n : ℚ) := by
  unfold truncQ
  rw [Rat.num_intCast, Rat.den_intCast]
  simp

lemma truncQ_idem (q : ℚ) : truncQ (truncQ q) = truncQ q := truncQ_intCast _

/-- The volume column is coerced to `int64` exactly when no value of
the inspected column is missing. -/
lemma volumeDtype_coercePriceRows (rows : List PriceRow) :
    (coercePriceRows rows).2 = .int64 ↔ ∀ r ∈ rows, r.adjVolume.isSome := by
  unfold coercePriceRows
  by_cases h : rows.any (fun r => r.adjVolume.isNone)
  · obtain ⟨r, hr, hn⟩ := List.any_eq_true.mp h
    simp only [h, if_true]
    constructor
    · intro hd
      exact absurd hd (by decide)
    · intro hall
      have := hall r hr
      rw [Option.isNone_iff_eq_none.mp hn] at this
      exact absurd this (by decide)
  · simp only [h, if_false]
    constructor
    · intro _ r hr
      by_cases hs : r.adjVolume.isSome
      · exact hs
      · exact absurd (List.any_eq_true.mpr ⟨r, hr, by simp [Option.isNone_iff_eq_none,
          Option.not_isSome_iff_eq_none.mp hs]⟩) h
    · intro _
      rfl

/-- Re-running the cache-read dtype coercion on the rows of a canonical
frame reproduces the frame. -/
lemma coerceCachedPrice_of_canonical {f : PriceFrame} (h : Canonical f) :
    coerceCachedPrice f.rows = f := by
  obtain ⟨ho, hc, hv⟩ := h
  rcases hv with ⟨hd, hall⟩ | ⟨hd, r0, hr0, hn0⟩
  · have hno : f.rows.any (fun r => r.adjVolume.isNone) = false := by
      rw [List.any_eq_false]
      intro r hr
      simp [Option.isNone_iff_eq_none, Option.isSome_iff_ne_none.mp (hall r hr).2]
    unfold coerceCachedPrice coercePriceRows
    simp only [hno, Bool.false_eq_true, if_false]
    have hmap : f.rows.map
        (fun r => (⟨r.date, r.adjOpen, r.adjClose, r.adjVolume.map truncQ⟩ : PriceRow)) =
          f.rows := by
      apply map_eq_self_of
      intro x hx
      have := (hall x hx).1
      cases x
      simp_all
    rw [hmap]
    cases f
    simp_all
  · have hyes : f.rows.any (fun r => r.adjVolume.isNone) = true :=
      List.any_eq_true.mpr ⟨r0, hr0, by simp [hn0]⟩
    unfold coerceCachedPrice coercePriceRows
    simp only [hyes, if_true]
    cases f
    simp_all

lemma dtypes_normalizePriceRows (rows : List PriceRow) :
    (normalizePriceRows rows).1.openDtype = .float64
    ∧ (normalizePriceRows rows).1.closeDtype = .float64
    ∧ (normalizePriceRows rows).1.volumeDtype = (coercePriceRows rows).2 := by
  unfold normalizePriceRows
  by_cases hnd :
      ((List.insertionSort dateLe (coercePriceRows rows).1).map (fun r => r.date)).Nodup <;>
    simp [hnd]

/-! ### The claims -/

/-- C1: whenever `useCache` is true and the cache artifact exists,
`load_ticker` / `load_vix` return the cached rows after dtype
re-coercion only, leave the cache untouched and produce an empty event
trace — in particular no network call — for every configuration,
including one whose API key is empty or invalid. -/
theorem cache_hit_reads_cache_without_network
    (ticker : String) (config : DataConfig) (fs : PriceCache) (vfs : VixCache)
    (oracle : Nat → Attempt) (resp : HttpVixResponse)
    (rows : List PriceRow) (vrows : List VixRow)
    (huse : config.use_cache = true) :
    (fs.lookup (cachePathOf config ticker) = some rows →
      load_ticker ticker config fs oracle = (.ok (coerceCachedPrice rows), fs, []))
    ∧ (vfs.lookup (config.cache_dir ++ "/VIX.csv") = some vrows →
      load_vix config vfs resp = (.ok ⟨vrows, .float64⟩, vfs, [])) := by
  constructor
  · intro hl
    unfold load_ticker
    simp only [huse, hl]
  · intro hl
    unfold load_vix
    simp only [huse, hl]

/-- C1 witness: a concrete cache hit with an empty API key. -/
theorem cache_hit_reads_cache_without_network_witness :
    load_ticker "spy" ⟨"", "u", "s", "e", "data/cache", true⟩
        [("data/cache/SPY.csv", [⟨1, some 1, some 2, some 3⟩])] (fun _ => .connError) =
      (.ok (coerceCachedPrice [⟨1, some 1, some 2, some 3⟩]),
        [("data/cache/SPY.csv", [⟨1, some 1, some 2, some 3⟩])], [])
    ∧ load_vix ⟨"", "u", "s", "e", "data/cache", true⟩
        [("data/cache/VIX.csv", [⟨1, some 15⟩])] ⟨503, []⟩ =
      (.ok ⟨[⟨1, some 15⟩], .float64⟩, [("data/cache/VIX.csv", [⟨1, some 15⟩])], []) := by
  have h := cache_hit_reads_cache_without_network "spy"
      ⟨"", "u", "s", "e", "data/cache", true⟩
      [("data/cache/SPY.csv", [⟨1, some 1, some 2, some 3⟩])]
      [("data/cache/VIX.csv", [⟨1, some 15⟩])]
      (fun _ => .connError) ⟨503, []⟩
      [⟨1, some 1, some 2, some 3⟩] [⟨1, some 15⟩] rfl
  exact ⟨h.1 rfl, h.2 rfl⟩

/-- C9: a 2xx VIX response whose CSV yields zero records is returned as
an empty series with no failure, while the zero-record check
(`DataEmpty`) fires on the price-fetch path. -/
theorem vix_empty_ok_price_empty_error :
    fetch_vix "2024-01-01" "2024-01-31" ⟨200, []⟩ =
      (.ok ⟨[], .float64⟩, [.networkCall])
    ∧ fetch_ticker_from_tiingo "SPY" "2024-01-01" "2024-01-31" "k" "u"
        (fun _ => .resp ⟨200, []⟩) = (.error .dataEmpty, [.networkCall]) :=
  ⟨rfl, rfl⟩

/-- C10: on a cache hit, `load_vix` returns the artifact rows exactly
as stored — only the close column's dtype is set to `float64` — with no
forward-fill, no leading-gap drop, no sort and no deduplication, so any
missing value stored in the artifact reaches the caller. -/
theorem vix_cache_hit_passthrough (config : DataConfig) (vfs : VixCache)
    (resp : HttpVixResponse) (vrows : List VixRow)
    (huse : config.use_cache = true)
    (hl : vfs.lookup (config.cache_dir ++ "/VIX.csv") = some vrows) :
    load_vix config vfs resp = (.ok ⟨vrows, .float64⟩, vfs, []) := by
  unfold load_vix
  simp only [huse, hl]

/-- C10 witness: a cached VIX artifact with an unsorted, missing-valued
row list is passed through unchanged. -/
theorem vix_cache_hit_passthrough_witness :
    load_vix ⟨"k", "u", "s", "e", "data/cache", true⟩
        [("data/cache/VIX.csv", [⟨2, some 16⟩, ⟨1, none⟩, ⟨1, some 15⟩])] ⟨200, []⟩ =
      (.ok ⟨[⟨2, some 16⟩, ⟨1, none⟩, ⟨1, some 15⟩], .float64⟩,
        [("data/cache/VIX.csv", [⟨2, some 16⟩, ⟨1, none⟩, ⟨1, some 15⟩])], []) :=
  vix_cache_hit_passthrough ⟨"k", "u", "s", "e", "data/cache", true⟩
    [("data/cache/VIX.csv", [⟨2, some 16⟩, ⟨1, none⟩, ⟨1, some 15⟩])] ⟨200, []⟩
    [⟨2, some 16⟩, ⟨1, none⟩, ⟨1, some 15⟩] rfl rfl

/-- C4 counterexample: a cache artifact whose rows are out of order is
returned by `load_ticker` exactly as stored (dtype coercion only),
which differs from what the full normalization of the network path
would produce — so the two paths are not identical. -/
theorem cache_path_skips_normalization_cex :
    (load_ticker "SPY" ⟨"k", "u", "s", "e", "data/cache", true⟩
        [("data/cache/SPY.csv", [⟨2, some 1, some 1, some 1⟩, ⟨1, some 1, some 1, some 1⟩])]
        (fun _ => .connError)).1 =
      .ok (coerceCachedPrice [⟨2, some 1, some 1, some 1⟩, ⟨1, some 1, some 1, some 1⟩])
    ∧ coerceCachedPrice [⟨2, some 1, some 1, some 1⟩, ⟨1, some 1, some 1, some 1⟩] ≠
        (normalizePriceRows [⟨2, some 1, some 1, some 1⟩, ⟨1, some 1, some 1, some 1⟩]).1 :=
  ⟨rfl, by decide⟩

/-- C4 (amended): the full normalization runs on the network path only;
the cache-read path re-applies just the dtype coercion.  The two paths
agree exactly on artifacts whose dates are already strictly ascending —
which holds for every artifact this layer itself writes. -/
theorem cache_coercion_eq_normalize_on_sorted (rows : List PriceRow)
    (h : rows.Pairwise (fun a b => a.date < b.date)) :
    coerceCachedPrice rows = (normalizePriceRows rows).1 := by
  have hdates : (rows.map (fun r => r.date)).Pairwise (· < ·) := List.pairwise_map.mpr h
  have hcd : ((coercePriceRows rows).1.map (fun r => r.date)).Pairwise (· < ·) := by
    rw [map_date_coercePriceRows]
    exact hdates
  have hpc : (coercePriceRows rows).1.Pairwise (fun a b => a.date < b.date) :=
    List.pairwise_map.mp hcd
  have hsorted : (coercePriceRows rows).1.Sorted dateLe :=
    hpc.imp (fun hab => le_of_lt hab)
  have heq : List.insertionSort dateLe (coercePriceRows rows).1 = (coercePriceRows rows).1 :=
    hsorted.insertionSort_eq
  have hnd : ((List.insertionSort dateLe (coercePriceRows rows).1).map
      (fun r => r.date)).Nodup := by
    rw [heq]
    exact hcd.imp (fun hab => ne_of_lt hab)
  unfold normalizePriceRows coerceCachedPrice
  rw [if_pos hnd, heq]

/-- C4 amended-claim witness: a concrete strictly ascending artifact. -/
theorem cache_coercion_eq_normalize_on_sorted_witness :
    coerceCachedPrice [⟨1, some 1, some 1, some 1⟩, ⟨2, some 1, some 1, none⟩] =
      (normalizePriceRows [⟨1, some 1, some 1, some 1⟩, ⟨2, some 1, some 1, none⟩]).1 :=
  cache_coercion_eq_normalize_on_sorted
    [⟨1, some 1, some 1, some 1⟩, ⟨2, some 1, some 1, none⟩] (by decide)

/-- C5: after a successful fetch, and likewise on the cache-read path,
`adjOpen` and `adjClose` are `float64`, and `adjVolume` is `int64` iff
no missing volume value exists anywhere in the inspected source column
(the raw records' volume field, resp. the artifact's volume column);
the last conjunct ties every successful fetch result to the
normalization. -/
theorem price_dtypes_after_coercion :
    (∀ records : List RawRecord,
        (normalizeRecords records).1.openDtype = .float64
        ∧ (normalizeRecords records).1.closeDtype = .float64
        ∧ ((normalizeRecords records).1.volumeDtype = .int64 ↔
            ∀ r ∈ records, r.adjVolume.isSome))
    ∧ (∀ rows : List PriceRow,
        (coerceCachedPrice rows).openDtype = .float64
        ∧ (coerceCachedPrice rows).closeDtype = .float64
        ∧ ((coerceCachedPrice rows).volumeDtype = .int64 ↔
            ∀ r ∈ rows, r.adjVolume.isSome))
    ∧ ∀ (t sd ed key burl : String) (oracle : Nat → Attempt) (f : PriceFrame)
        (evs : List FsEvent),
        fetch_ticker_from_tiingo t sd ed key burl oracle = (.ok f, evs) →
        ∃ records, records ≠ [] ∧ f = (normalizeRecords records).1 := by
  refine ⟨fun records => ?_, fun rows => ?_, fun _ _ _ _ _ _ _ _ h => fetch_ok_inv h⟩
  · obtain ⟨ho, hc, hv⟩ := dtypes_normalizePriceRows (records.map rawToRow)
    refine ⟨ho, hc, ?_⟩
    rw [normalizeRecords, hv, volumeDtype_coercePriceRows]
    constructor
    · intro hall r hr
      simpa [rawToRow] using hall (rawToRow r) (List.mem_map_of_mem rawToRow hr)
    · intro hall r hr
      obtain ⟨x, hx, hxe⟩ := List.mem_map.mp hr
      subst hxe
      simpa [rawToRow] using hall x hx
  · refine ⟨rfl, rfl, ?_⟩
    exact volumeDtype_coercePriceRows rows

/-- C5 witness: concrete dtype computations on both paths, plus the
fetch tie-in at a concrete successful call. -/
theorem price_dtypes_after_coercion_witness :
    ((normalizeRecords [⟨1, none, some 1, some 2, none, []⟩]).1.volumeDtype = .int64 ↔
      ∀ r ∈ [(⟨1, none, some 1, some 2, none, []⟩ : RawRecord)], r.adjVolume.isSome)
    ∧ ((coerceCachedPrice [⟨1, some 1, some 2, some 3⟩]).volumeDtype = .int64 ↔
      ∀ r ∈ [(⟨1, some 1, some 2, some 3⟩ : PriceRow)], r.adjVolume.isSome)
    ∧ ∃ records, records ≠ [] ∧
        (⟨[⟨1, some 1, some 2, some 3⟩], .float64, .float64, .int64⟩ : PriceFrame) =
          (normalizeRecords records).1 :=
  ⟨(price_dtypes_after_coercion.1 [⟨1, none, some 1, some 2, none, []⟩]).2.2,
    (price_dtypes_after_coercion.2.1 [⟨1, some 1, some 2, some 3⟩]).2.2,
    price_dtypes_after_coercion.2.2 "SPY" "s" "e" "k" "u"
      (fun _ => .resp ⟨200, [⟨1, none, some 1, some 2, some 3, []⟩]⟩)
      ⟨[⟨1, some 1, some 2, some 3⟩], .float64, .float64, .int64⟩
      [.networkCall] rfl⟩

/-- C6 counterexample: `df.sort_index()`'s default quicksort is not
stable, so the code only guarantees a date-sorted permutation
(`IsDateSorting`).  For a body with two rows of the same date there is
a contract-satisfying sort order from which keep-first deduplication
retains the second raw occurrence — the swapped order is itself sorted
and a permutation of the input, dedup on it keeps the second row, and
hence first-raw-occurrence-wins does not follow from the code. -/
theorem first_occurrence_not_guaranteed_cex :
    IsDateSorting
        [(⟨1, some 1, some 1, some 1⟩ : PriceRow), ⟨1, some 2, some 2, some 2⟩]
        [(⟨1, some 2, some 2, some 2⟩ : PriceRow), ⟨1, some 1, some 1, some 1⟩]
    ∧ dedupDates [(⟨1, some 2, some 2, some 2⟩ : PriceRow), ⟨1, some 1, some 1, some 1⟩] []
        = [⟨1, some 2, some 2, some 2⟩]
    ∧ ¬ ∀ s : List PriceRow,
        IsDateSorting
            [(⟨1, some 1, some 1, some 1⟩ : PriceRow), ⟨1, some 2, some 2, some 2⟩] s →
        (dedupDates s []).filter (dateIs 1) =
          ([(⟨1, some 1, some 1, some 1⟩ : PriceRow),
            ⟨1, some 2, some 2, some 2⟩].filter (dateIs 1)).take 1 := by
  refine ⟨⟨by decide, by decide⟩, rfl, ?_⟩
  intro hall
  have h := hall [⟨1, some 2, some 2, some 2⟩, ⟨1, some 1, some 1, some 1⟩]
    ⟨by decide, by decide⟩
  exact absurd h (by decide)

/-- C6 (amended): the result of a successful fetch has strictly
ascending, duplicate-free dates; under every tie order the unstable
sort may produce (any `IsDateSorting` output), deduplication keeps, for
each date, the first occurrence in that sorted order — which is the
first raw occurrence whenever the raw dates are already non-decreasing
(the sort then leaves the order unchanged), but is not otherwise
guaranteed to be; the duplicate warning fires exactly when the raw
dates repeat; and duplicates are signalled by the warning event only,
never as a failure. -/
theorem fetch_dedup_first_in_sort_order (records : List RawRecord) :
    (normalizeRecords records).1.rows.Pairwise (fun a b => a.date < b.date)
    ∧ (∀ s : List PriceRow,
        IsDateSorting (coercePriceRows (records.map rawToRow)).1 s →
        (dedupDates s []).Pairwise (fun a b => a.date < b.date)
        ∧ ∀ d : Date, (dedupDates s []).filter (dateIs d) =
            (s.filter (dateIs d)).take 1)
    ∧ ((records.map (fun r => r.date)).Pairwise (· ≤ ·) →
        ∀ d : Date, (normalizeRecords records).1.rows.filter (dateIs d) =
          ((coercePriceRows (records.map rawToRow)).1.filter (dateIs d)).take 1)
    ∧ ((normalizeRecords records).2 = true ↔ ¬ (records.map (fun r => r.date)).Nodup)
    ∧ ∀ (t sd ed key burl : String) (oracle : Nat → Attempt) (r : HttpResponse),
        key ≠ "" → attemptStep (oracle 0) = .done (.success r) → r.body = records →
        records ≠ [] →
        fetch_ticker_from_tiingo t sd ed key burl oracle =
          (.ok (normalizeRecords records).1,
            [.networkCall] ++
              if (normalizeRecords records).2 then [.warnDuplicates] else []) := by
  refine ⟨pairwise_lt_normalizePriceRows (records.map rawToRow), ?_, ?_, ?_, ?_⟩
  · rintro s ⟨-, hsorted⟩
    refine ⟨?_, fun d => ?_⟩
    · exact (List.Pairwise.sublist (dedupDates_sublist s []) hsorted).imp₂
        (fun a b h1 h2 => lt_of_le_of_ne h1 h2) (pairwise_ne_dedupDates s [])
    · rw [filter_dedupDates s [] d, if_neg (List.not_mem_nil d)]
  · intro hmono d
    have hcd : ((coercePriceRows (records.map rawToRow)).1.map
        (fun r => r.date)).Pairwise (· ≤ ·) := by
      rw [map_date_coercePriceRows, rawToRow_dates]
      exact hmono
    have hpc : (coercePriceRows (records.map rawToRow)).1.Pairwise
        (fun a b => a.date ≤ b.date) := List.pairwise_map.mp hcd
    have hsorted : (coercePriceRows (records.map rawToRow)).1.Sorted dateLe := hpc
    have heq : List.insertionSort dateLe (coercePriceRows (records.map rawToRow)).1 =
        (coercePriceRows (records.map rawToRow)).1 := hsorted.insertionSort_eq
    unfold normalizeRecords normalizePriceRows
    simp only [heq]
    by_cases hnd :
        ((coercePriceRows (records.map rawToRow)).1.map (fun r => r.date)).Nodup
    · rw [if_pos hnd]
      exact filter_eq_take_one_of_nodup _ hnd d
    · rw [if_neg hnd, filter_dedupDates _ [] d, if_neg (List.not_mem_nil d)]
  · rw [normalizeRecords, warned_normalizePriceRows, rawToRow_dates]
  · intro t sd ed key burl oracle r hkey hstep hbody hne
    unfold fetch_ticker_from_tiingo
    rw [if_neg hkey, retryFetch_done oracle 0 «_MAX_RETRIES» _ hstep]
    have hempty : records.isEmpty = false := by
      cases records with
      | nil => exact absurd rfl hne
      | cons a as => rfl
    simp only [hbody, hempty, Bool.false_eq_true, if_false]

/-- C6 amended-claim witness: the sort-order-first rule at a concrete
duplicate pair, the raw-first rule on a concrete monotonic body, and a
concrete warning-but-success fetch. -/
theorem fetch_dedup_first_in_sort_order_witness :
    ((dedupDates [(⟨1, some 2, some 2, some 2⟩ : PriceRow),
          ⟨1, some 1, some 1, some 1⟩] []).filter (dateIs 1) =
        ([(⟨1, some 2, some 2, some 2⟩ : PriceRow),
          ⟨1, some 1, some 1, some 1⟩].filter (dateIs 1)).take 1)
    ∧ ((normalizeRecords [⟨1, none, some 1, some 1, some 1, []⟩,
          ⟨1, none, some 2, some 2, some 2, []⟩]).1.rows.filter (dateIs 1) =
        ((coercePriceRows ([⟨1, none, some 1, some 1, some 1, []⟩,
            ⟨1, none, some 2, some 2, some 2, []⟩].map rawToRow)).1.filter
          (dateIs 1)).take 1)
    ∧ fetch_ticker_from_tiingo "MGK" "s" "e" "k" "u"
          (fun _ => .resp ⟨200, [⟨1, none, some 1, some 1, some 1, []⟩,
            ⟨1, none, some 2, some 2, some 2, []⟩]⟩) =
        (.ok (normalizeRecords [⟨1, none, some 1, some 1, some 1, []⟩,
            ⟨1, none, some 2, some 2, some 2, []⟩]).1,
          [.networkCall, .warnDuplicates]) := by
  have h := fetch_dedup_first_in_sort_order
    [⟨1, none, some 1, some 1, some 1, []⟩, ⟨1, none, some 2, some 2, some 2, []⟩]
  refine ⟨?_, h.2.2.1 (by decide) 1, ?_⟩
  · exact ((fetch_dedup_first_in_sort_order
      [⟨1, none, some 2, some 2, some 2, []⟩,
        ⟨1, none, some 1, some 1, some 1, []⟩]).2.1
      [⟨1, some 2, some 2, some 2⟩, ⟨1, some 1, some 1, some 1⟩]
      ⟨by decide, by decide⟩).2 1
  · have he := h.2.2.2.2 "MGK" "s" "e" "k" "u"
      (fun _ => .resp ⟨200, [⟨1, none, some 1, some 1, some 1, []⟩,
        ⟨1, none, some 2, some 2, some 2, []⟩]⟩)
      ⟨200, [⟨1, none, some 1, some 1, some 1, []⟩,
        ⟨1, none, some 2, some 2, some 2, []⟩]⟩
      (by decide) rfl rfl (by decide)
    rw [he]
    rfl

/-- C2: when the first four attempts all end in retryable outcomes
(HTTP 429 / 5xx or a connection failure), the fetch sleeps exactly 1s,
2s, then 4s between its four attempts and fails with `unavailable`
carrying the attempt count (4) and the last outcome. -/
theorem retry_exhaustion_unavailable (ticker sd ed key burl : String)
    (oracle : Nat → Attempt) (hkey : key ≠ "")
    (hretry : ∀ i, i < «_MAX_RETRIES» + 1 → Retryable (oracle i)) :
    fetch_ticker_from_tiingo ticker sd ed key burl oracle =
      (.error (.unavailable («_MAX_RETRIES» + 1) (lastOutcomeOf (oracle «_MAX_RETRIES»))),
        [.networkCall, .sleep 1, .networkCall, .sleep 2, .networkCall, .sleep 4,
          .networkCall]) := by
  have ha0 := attemptStep_retry (hretry 0 (by norm_num [«_MAX_RETRIES»]))
  have ha1 := attemptStep_retry (hretry 1 (by norm_num [«_MAX_RETRIES»]))
  have ha2 := attemptStep_retry (hretry 2 (by norm_num [«_MAX_RETRIES»]))
  have ha3 := attemptStep_retry (hretry 3 (by norm_num [«_MAX_RETRIES»]))
  unfold fetch_ticker_from_tiingo
  rw [if_neg hkey]
  have e : retryFetch oracle 0 «_MAX_RETRIES» =
      (.failure (.unavailable («_MAX_RETRIES» + 1) (lastOutcomeOf (oracle «_MAX_RETRIES»))),
        [.networkCall, .sleep 1, .networkCall, .sleep 2, .networkCall, .sleep 4,
          .networkCall]) := by
    simp [retryFetch.eq_def, ha0, ha1, ha2, ha3, «_MAX_RETRIES», «_BACKOFF_SECONDS»]
  rw [e]

/-- C2 witness: four straight HTTP 503 responses. -/
theorem retry_exhaustion_unavailable_witness :
    fetch_ticker_from_tiingo "SPY" "2024-01-02" "2024-01-31" "TEST_KEY" "u"
        (fun _ => .resp ⟨503, []⟩) =
      (.error (.unavailable 4 (.httpStatus 503)),
        [.networkCall, .sleep 1, .networkCall, .sleep 2, .networkCall, .sleep 4,
          .networkCall]) :=
  retry_exhaustion_unavailable "SPY" "2024-01-02" "2024-01-31" "TEST_KEY" "u"
    (fun _ => .resp ⟨503, []⟩) (by decide) (fun _ _ => Or.inr (by norm_num))

/-- C3 counterexample: on a concrete cache miss the trace is a single
direct `writeFile` to the artifact path (after `mkdirs`); no temp-file
write and no rename occur, so the claimed atomic-replace /
write-to-temp-then-rename mechanism is not used. -/
theorem write_is_not_atomic_cex :
    (load_ticker "SPY" ⟨"k", "u", "s", "e", "data/cache", true⟩ []
        (fun _ => .resp ⟨200, [⟨1, none, some 1, some 2, some 3, []⟩]⟩)).2.2 =
      [.networkCall, .mkdirs "data/cache", .writeFile "data/cache/SPY.csv"]
    ∧ ¬ usesAtomicReplace
        [.networkCall, .mkdirs "data/cache", .writeFile "data/cache/SPY.csv"]
        "data/cache/SPY.csv" := by
  refine ⟨rfl, ?_⟩
  rintro ⟨tmp, hmem, -⟩
  simp [usesAtomicReplace] at hmem

/-- C3 (amended): on a cache miss that returns successfully, the
normalized series is written to the artifact location (by a direct,
non-atomic file write) before the call returns, and a subsequent load
of the same identifier with `useCache=true` is a cache hit that makes
no network call.  This holds for `load_ticker` and for `load_vix`. -/
theorem write_before_return_then_cache_hit :
    (∀ (ticker : String) (config : DataConfig) (fs : PriceCache)
        (oracle : Nat → Attempt) (f : PriceFrame) (fs2 : PriceCache)
        (evs : List FsEvent),
      load_ticker ticker config fs oracle = (.ok f, fs2, evs) →
      (config.use_cache = false ∨ fs.lookup (cachePathOf config ticker) = none) →
      fs2.lookup (cachePathOf config ticker) = some f.rows
      ∧ FsEvent.writeFile (cachePathOf config ticker) ∈ evs
      ∧ ∀ oracle2, config.use_cache = true →
          load_ticker ticker config fs2 oracle2 =
            (.ok (coerceCachedPrice f.rows), fs2, []))
    ∧ (∀ (config : DataConfig) (vfs : VixCache) (resp : HttpVixResponse)
        (g : VixFrame) (vfs2 : VixCache) (evs2 : List FsEvent),
      load_vix config vfs resp = (.ok g, vfs2, evs2) →
      (config.use_cache = false ∨ vfs.lookup (config.cache_dir ++ "/VIX.csv") = none) →
      vfs2.lookup (config.cache_dir ++ "/VIX.csv") = some g.rows
      ∧ FsEvent.writeFile (config.cache_dir ++ "/VIX.csv") ∈ evs2
      ∧ ∀ resp2, config.use_cache = true →
          load_vix config vfs2 resp2 = (.ok ⟨g.rows, .float64⟩, vfs2, [])) := by
  constructor
  · intro ticker config fs oracle f fs2 evs hload hmiss
    have hstep : load_ticker ticker config fs oracle =
        (match fetch_ticker_from_tiingo ticker config.start_date config.end_date
            config.tiingo_api_key config.tiingo_base_url oracle with
          | (.error e, evs) => (.error e, fs, evs)
          | (.ok f, evs) =>
            (.ok f, (cachePathOf config ticker, f.rows) :: fs,
              evs ++ [.mkdirs config.cache_dir,
                .writeFile (cachePathOf config ticker)])) := by
      unfold load_ticker
      rcases hmiss with hu | hn
      · rw [hu]
      · cases hu : config.use_cache
        · rfl
        · simp only [hn]
    rw [hstep] at hload
    rcases hf : fetch_ticker_from_tiingo ticker config.start_date config.end_date
        config.tiingo_api_key config.tiingo_base_url oracle with ⟨res, evsf⟩
    rw [hf] at hload
    cases res with
    | error e => simp at hload
    | ok f0 =>
      simp only [Prod.mk.injEq] at hload
      obtain ⟨he, hfs, hevs⟩ := hload
      have hff : f0 = f := Except.ok.inj he
      subst hff
      refine ⟨?_, ?_, ?_⟩
      · rw [← hfs]
        simp [List.lookup]
      · rw [← hevs]
        exact List.mem_append.mpr (Or.inr (by simp))
      · intro oracle2 huse
        unfold load_ticker
        rw [← hfs]
        simp only [huse, List.lookup, beq_self_eq_true]
  · intro config vfs resp g vfs2 evs2 hload hmiss
    have hstep : load_vix config vfs resp =
        (match fetch_vix config.start_date config.end_date resp with
          | (.error e, evs) => (.error e, vfs, evs)
          | (.ok f, evs) =>
            (.ok f, (config.cache_dir ++ "/VIX.csv", f.rows) :: vfs,
              evs ++ [.mkdirs config.cache_dir,
                .writeFile (config.cache_dir ++ "/VIX.csv")])) := by
      unfold load_vix
      rcases hmiss with hu | hn
      · rw [hu]
      · cases hu : config.use_cache
        · rfl
        · simp only [hn]
    rw [hstep] at hload
    rcases hf : fetch_vix config.start_date config.end_date resp with ⟨res, evsf⟩
    rw [hf] at hload
    cases res with
    | error e => simp at hload
    | ok g0 =>
      simp only [Prod.mk.injEq] at hload
      obtain ⟨he, hfs, hevs⟩ := hload
      have hgg : g0 = g := Except.ok.inj he
      subst hgg
      refine ⟨?_, ?_, ?_⟩
      · rw [← hfs]
        simp [List.lookup]
      · rw [← hevs]
        exact List.mem_append.mpr (Or.inr (by simp))
      · intro resp2 huse
        unfold load_vix
        rw [← hfs]
        simp only [huse, List.lookup, beq_self_eq_true]

/-- C3 amended-claim witness: the concrete miss of the counterexample,
checked end to end. -/
theorem write_before_return_then_cache_hit_witness :
    ([(("data/cache/SPY.csv" : String),
        [(⟨1, some 1, some 2, some 3⟩ : PriceRow)])].lookup
          ("data/cache/SPY.csv" : String) =
        some [(⟨1, some 1, some 2, some 3⟩ : PriceRow)])
    ∧ FsEvent.writeFile "data/cache/SPY.csv" ∈
        [FsEvent.networkCall, FsEvent.mkdirs "data/cache",
          FsEvent.writeFile "data/cache/SPY.csv"]
    ∧ ∀ oracle2 : Nat → Attempt,
        ("data/cache/SPY.csv", [(⟨1, some 1, some 2, some 3⟩ : PriceRow)]) ::
            ([] : PriceCache) = [("data/cache/SPY.csv",
              [(⟨1, some 1, some 2, some 3⟩ : PriceRow)])] →
        load_ticker "SPY" ⟨"k", "u", "s", "e", "data/cache", true⟩
            [("data/cache/SPY.csv", [⟨1, some 1, some 2, some 3⟩])] oracle2 =
          (.ok (coerceCachedPrice [⟨1, some 1, some 2, some 3⟩]),
            [("data/cache/SPY.csv", [⟨1, some 1, some 2, some 3⟩])], []) := by
  have h := write_before_return_then_cache_hit.1 "SPY"
      ⟨"k", "u", "s", "e", "data/cache", true⟩ []
      (fun _ => .resp ⟨200, [⟨1, none, some 1, some 2, some 3, []⟩]⟩)
      ⟨[⟨1, some 1, some 2, some 3⟩], .float64, .float64, .int64⟩
      [("data/cache/SPY.csv", [⟨1, some 1, some 2, some 3⟩])]
      [.networkCall, .mkdirs "data/cache", .writeFile "data/cache/SPY.csv"]
      rfl (Or.inr rfl)
  exact ⟨h.1, h.2.1, fun oracle2 _ => h.2.2 oracle2 rfl⟩

lemma lastValid_append (l1 l2 : List VixRow) (c : Cell) :
    lastValid (l1 ++ l2) c = lastValid l2 (lastValid l1 c) := by
  induction l1 generalizing c with
  | nil => rfl
  | cons x xs ih =>
    cases hv : x.vix_close <;> simp [lastValid, hv, ih]

/-- C7: in the VIX post-processing, a missing value whose prefix holds
a prior valid value is replaced by the most recent such value
(`lastValid`); the dates that survive are exactly those from the first
valid observation on (dropped, not filled, before it); the result holds
no missing value; and every 2xx response is post-processed this way. -/
theorem vix_ffill_drop (records : List VixRow) :
    (∀ (i : Nat) (hi : i < records.length) (v : ℚ),
        (records.get ⟨i, hi⟩).vix_close = none →
        lastValid (records.take i) none = some v →
        (⟨(records.get ⟨i, hi⟩).date, some v⟩ : VixRow) ∈ (processVix records).rows)
    ∧ List.Perm ((processVix records).rows.map (fun r => r.date))
        ((records.drop (firstValidIdx records)).map (fun r => r.date))
    ∧ (∀ r ∈ (processVix records).rows, r.vix_close.isSome)
    ∧ (∀ (sd ed : String) (resp : HttpVixResponse), resp.statusCode < 400 →
        fetch_vix sd ed resp = (.ok (processVix resp.records), [.networkCall])) := by
  refine ⟨?_, ?_, ?_, ?_⟩
  · intro i hi v hnone hlast
    have htake : records.take (i + 1) = records.take i ++ [records.get ⟨i, hi⟩] := by
      rw [List.take_succ, List.getElem?_eq_getElem hi]
      rfl
    have hlv : lastValid (records.take (i + 1)) none = some v := by
      rw [htake, lastValid_append]
      have hnone2 : records[i].vix_close = none := by
        simpa [List.get_eq_getElem] using hnone
      simp [lastValid, hnone2, hlast]
    have hget := ffill_getElem? records none i hi
    rw [hlv] at hget
    have hmem : (⟨(records.get ⟨i, hi⟩).date, some v⟩ : VixRow) ∈ ffill records none :=
      List.getElem?_mem hget
    have hfil : (⟨(records.get ⟨i, hi⟩).date, some v⟩ : VixRow) ∈
        (ffill records none).filter (fun r => r.vix_close.isSome) :=
      List.mem_filter.mpr ⟨hmem, by simp⟩
    simp only [processVix]
    exact (List.mem_insertionSort vixDateLe).mpr hfil
  · have h1 : List.Perm (processVix records).rows
        (ffill (records.drop (firstValidIdx records)) none) := by
      simp only [processVix]
      rw [← filter_ffill]
      exact List.perm_insertionSort _ _
    exact (h1.map _).trans (by rw [map_date_ffill])
  · intro r hr
    simp only [processVix] at hr
    have := (List.mem_insertionSort vixDateLe).mp hr
    simpa using (List.mem_filter.mp this).2
  · intro sd ed resp h
    unfold fetch_vix
    rw [if_neg (Nat.not_le.mpr h)]

/-- C7 witness: the spec's own leading-gap example extended with an
interior gap. -/
theorem vix_ffill_drop_witness :
    (⟨3, some 15⟩ : VixRow) ∈ (processVix [⟨1, none⟩, ⟨2, some 15⟩, ⟨3, none⟩]).rows
    ∧ fetch_vix "s" "e" ⟨200, [⟨1, none⟩, ⟨2, some 15⟩, ⟨3, none⟩]⟩ =
        (.ok (processVix [⟨1, none⟩, ⟨2, some 15⟩, ⟨3, none⟩]), [.networkCall]) := by
  refine ⟨?_, (vix_ffill_drop [⟨1, none⟩, ⟨2, some 15⟩, ⟨3, none⟩]).2.2.2 "s" "e"
    ⟨200, [⟨1, none⟩, ⟨2, some 15⟩, ⟨3, none⟩]⟩ (by norm_num)⟩
  have h := (vix_ffill_drop [⟨1, none⟩, ⟨2, some 15⟩, ⟨3, none⟩]).1 2 (by norm_num) 15
    rfl rfl
  simpa using h

/-- C8 counterexample: a cache-miss result whose only missing-volume
row was removed by deduplication has a `float64` volume column but no
surviving NaN; writing it and loading it back re-types the volume
column to `int64`, so the reloaded series differs from the original in
dtype. -/
theorem cache_roundtrip_cex :
    (load_ticker "SPY" ⟨"k", "u", "s", "e", "data/cache", true⟩ []
        (fun _ => .resp ⟨200, [⟨1, none, some 1, some 1, some 5, []⟩,
          ⟨1, none, some 2, some 2, none, []⟩]⟩)).1 =
      .ok ⟨[⟨1, some 1, some 1, some 5⟩], .float64, .float64, .float64⟩
    ∧ (load_ticker "SPY" ⟨"k", "u", "s", "e", "data/cache", true⟩ []
        (fun _ => .resp ⟨200, [⟨1, none, some 1, some 1, some 5, []⟩,
          ⟨1, none, some 2, some 2, none, []⟩]⟩)).2.1 =
      [("data/cache/SPY.csv", [⟨1, some 1, some 1, some 5⟩])]
    ∧ (load_ticker "SPY" ⟨"k", "u", "s", "e", "data/cache", true⟩
        [("data/cache/SPY.csv", [⟨1, some 1, some 1, some 5⟩])]
        (fun _ => .connError)).1 =
      .ok ⟨[⟨1, some 1, some 1, some 5⟩], .float64, .float64, .int64⟩
    ∧ (⟨[⟨1, some 1, some 1, some 5⟩], .float64, .float64, .int64⟩ : PriceFrame) ≠
        ⟨[⟨1, some 1, some 1, some 5⟩], .float64, .float64, .float64⟩ :=
  ⟨rfl, rfl, rfl, by decide⟩

/-- C8 (amended): for a canonical series whose volume dtype is
witnessed by its surviving rows (`Canonical` — which holds for every
cache-miss result except when deduplication removed every
missing-volume row), writing the artifact and loading it again with
`useCache=true` returns the identical frame. -/
theorem cache_roundtrip_of_canonical (ticker : String) (config : DataConfig)
    (fs : PriceCache) (oracle : Nat → Attempt) (f : PriceFrame)
    (huse : config.use_cache = true) (hf : Canonical f) :
    load_ticker ticker config ((cachePathOf config ticker, f.rows) :: fs) oracle =
      (.ok f, (cachePathOf config ticker, f.rows) :: fs, []) := by
  unfold load_ticker
  simp only [huse, List.lookup, beq_self_eq_true]
  rw [coerceCachedPrice_of_canonical hf]

/-- C8 amended-claim witness: a concrete canonical frame round-trips. -/
theorem cache_roundtrip_of_canonical_witness :
    load_ticker "SPY" ⟨"", "u", "s", "e", "data/cache", true⟩
        ((cachePathOf ⟨"", "u", "s", "e", "data/cache", true⟩ "SPY",
          [(⟨1, some 1, some 2, some 3⟩ : PriceRow)]) :: []) (fun _ => .connError) =
      (.ok ⟨[⟨1, some 1, some 2, some 3⟩], .float64, .float64, .int64⟩,
        (cachePathOf ⟨"", "u", "s", "e", "data/cache", true⟩ "SPY",
          [(⟨1, some 1, some 2, some 3⟩ : PriceRow)]) :: [], []) :=
  cache_roundtrip_of_canonical "SPY" ⟨"", "u", "s", "e", "data/cache", true⟩ []
    (fun _ => .connError)
    ⟨[⟨1, some 1, some 2, some 3⟩], .float64, .float64, .int64⟩ rfl
    ⟨rfl, rfl, Or.inl ⟨rfl, by decide⟩⟩

end TiingoLoader
